import Mathlib

/-!
Verification of the JSON-batch utilities of `spark-rapids-jni`
(`src/main/cpp/src/json_utils.cu`): row classification and document
concatenation (`concat_json`), delimiter selection, struct reassembly
(`make_structs`), and the two leaf post-processors
(`cast_strings_to_booleans`, `remove_quotes`).

A row of the input string column is modelled as `Option (List Nat)`:
`none` for a null row, otherwise the row's byte string (each byte in
`0..255`).  Device-side loops over byte indices are rendered as list
recursion/`dropWhile`; per-row device lambdas become per-row Lean
functions mapped over the column.
-/

namespace SparkRapidsJni

/-- One element of a string column: null, or a byte string. -/
abbrev Row := Option (List Nat)

/-- `not_whitespace` (json_utils.cu): `ch != ' ' && ch != '\r' && ch != '\n' && ch != '\t'`. -/
def not_whitespace (ch : Nat) : Bool :=
  ch != 32 && ch != 13 && ch != 10 && ch != 9

/-- `can_be_delimiter` (json_utils.cu): the switch rejecting
`{ [ } ] , : " ' \ space tab CR`; all other byte values are accepted. -/
def can_be_delimiter (c : Nat) : Bool :=
  !(c == 123 || c == 91 || c == 125 || c == 93 || c == 44 || c == 58 ||
    c == 34 || c == 39 || c == 92 || c == 32 || c == 9 || c == 13)

/-- The per-row device lambda of `concat_json` (json_utils.cu lines 99-156).
Returns the pair written through the zip iterator:
`(is_valid_input, is_null_or_empty)`.

* null row: `(false, true)`;
* the first loop skips leading whitespace (`dropWhile`);
* if the remaining text starts with the 4 bytes `null`, the second loop
  skips whitespace after it; when nothing else remains the row is the
  `null` literal and yields `(false, false)`;
* otherwise `ch` is the first remaining byte (or end of string was
  reached, `not_eol = false`); a row whose `ch` differs from `{` yields
  `(false, false)`, and the final write is `(not_eol, !not_eol)`. -/
def classify_row (row : Row) : Bool × Bool :=
  match row with
  | none => (false, true)
  | some s =>
    match s.dropWhile (fun ch => !not_whitespace ch) with
    | 110 :: 117 :: 108 :: 108 :: rest =>
      match rest.dropWhile (fun ch => !not_whitespace ch) with
      | [] => (false, false)
      | ch :: _ => (ch == 123, false)
    | [] => (false, true)
    | ch :: _ => (ch == 123, false)

/-- Occurrences of the byte `b` in the flattened chars buffer. -/
def count_byte (content : List Nat) (b : Nat) : Nat :=
  content.countP (fun x => x == b)

/-- The histogram built by `cub::DeviceHistogram::HistogramEven` over the
chars buffer with `num_levels = 256`, `lower_level = -128`,
`upper_level = 127` (json_utils.cu lines 158-186), read through a signed
`char`.  `num_levels` counts the bin *boundaries*, so the call fills only
`num_levels - 1 = 255` bins covering `[-128, 127)`: a sample equal to
`127` falls outside the sampled range and is never counted, and entry
`255` of the 256-entry histogram buffer keeps its `thrust::uninitialized_fill`
value `0`.  Bin `idx < 128` holds char `idx - 128`, i.e. byte `idx + 128`;
bin `128 ≤ idx ≤ 254` holds char (= byte) `idx - 128`. -/
def hist_bin (content : List Nat) (idx : Nat) : Nat :=
  if idx = 255 then 0
  else if idx < 128 then count_byte content (idx + 128)
  else count_byte content (idx - 128)

/-- The `thrust::find_if` of `concat_json` (json_utils.cu lines 188-209):
scan histogram bins from `zero_level_idx = 128` (char `0`) to `255`,
looking for the first zero-count bin whose char passes
`can_be_delimiter`; the result is that char (equivalently, the distance
from `zero_level_it`). -/
def find_delimiter (content : List Nat) : Option Nat :=
  ((List.range' 128 128).find?
      (fun idx => hist_bin content idx == 0 && can_be_delimiter (idx - 128))).map
    (fun idx => idx - 128)

/-- The triple returned by `concat_json`: the `is_null_or_empty` column,
the joined chars buffer, and the chosen delimiter byte. -/
structure ConcatResult where
  is_null_or_empty : List Bool
  joined : List Nat
  delimiter : Nat
deriving DecidableEq, Repr

/-- `concat_json` (json_utils.cu lines 79-236).

* the classifier kernel fills `is_valid_input` / `is_null_or_empty`;
* the chars buffer is the concatenation of all rows' bytes (null rows
  have no bytes);
* the delimiter search over the histogram either throws
  (`std::logic_error`) or yields the delimiter;
* `cudf::strings::detail::join_strings` is applied to the input with the
  null mask rebuilt from `is_valid_input` (when that mask equals the
  input's own mask the input is used directly, which joins the same
  sequence of payloads), separator = the delimiter, and null
  replacement `narep = "{}"`: each masked-out row contributes the two
  bytes `{}`, the others contribute their bytes verbatim, and the
  pieces are interleaved with the delimiter.  Nothing is prepended or
  appended around the joined buffer. -/
def concat_json (input : List Row) : Except String ConcatResult :=
  let classifications := input.map classify_row
  let is_valid_input := classifications.map Prod.fst
  let is_null_or_empty := classifications.map Prod.snd
  let content := (input.map (fun r => r.getD [])).flatten
  match find_delimiter content with
  | none => .error "Cannot find any character suitable as delimiter during joining json strings."
  | some delimiter =>
    let payloads := List.zipWith
      (fun r v => if v then r.getD [] else [123, 125]) input is_valid_input
    .ok ⟨is_null_or_empty, List.intercalate [delimiter] payloads, delimiter⟩

/-- A `cudf::column_view` child handed to `make_structs`: its row count
and (opaque) device data. -/
structure ColumnView where
  size : Nat
  data : List Nat
deriving DecidableEq, Repr

/-- The struct column built by `make_structs`: row count, validity
bitmap (one bit per row), and the child columns. -/
structure StructColumn where
  row_count : Nat
  validity : List Bool
  children : List ColumnView
deriving DecidableEq, Repr

/-- `make_structs` (json_utils.cu lines 238-262).

* `children.size() == 0` returns `nullptr` (modelled `.ok none`), with
  no error and without reading `is_null`;
* every child's size is checked against the first child's
  (`CUDF_EXPECTS`, modelled `.error`);
* `cudf::detail::valid_if` with `thrust::logical_not` turns `is_null`
  into the validity bitmap, and the children are put unchanged into the
  resulting struct `column_view`. -/
def make_structs (children : List ColumnView) (is_null : List Bool) :
    Except String (Option StructColumn) :=
  if children.length = 0 then .ok none
  else
    let row_count := (children.headD ⟨0, []⟩).size
    if children.all (fun col => col.size == row_count) then
      .ok (some ⟨row_count, is_null.map (fun b => !b), children⟩)
    else .error "All columns must have the same number of rows."

/-- The per-row lambda of `detail::cast_strings_to_booleans`
(json_utils.cu lines 279-294): the `(value, validity)` pair written by
`thrust::tabulate`.  A valid row equal to the 4 bytes `true` gives
`(true, true)`, one equal to the 5 bytes `false` gives `(false, true)`,
anything else (null included) gives `(false, false)`. -/
def cast_string_to_boolean (row : Row) : Bool × Bool :=
  match row with
  | none => (false, false)
  | some s =>
    if s.length == 4 && s.getD 0 0 == 116 && s.getD 1 0 == 114 &&
        s.getD 2 0 == 117 && s.getD 3 0 == 101 then (true, true)
    else if s.length == 5 && s.getD 0 0 == 102 && s.getD 1 0 == 97 &&
        s.getD 2 0 == 108 && s.getD 3 0 == 115 && s.getD 4 0 == 101 then (false, true)
    else (false, false)

/-- Public `cast_strings_to_booleans` (json_utils.cu lines 453-468): the
detail kernel's `(value, validity)` pairs, with `valid_if` over the
validity vector attached as the output null mask.  A row of the output
is `some value` when its validity bit is set and null otherwise. -/
def cast_strings_to_booleans (input : List Row) : List (Option Bool) :=
  input.map (fun row =>
    let vp := cast_string_to_boolean row
    if vp.2 then some vp.1 else none)

/-- `cudf::strings::detail::bytes_in_utf8_byte`: the number of bytes of
the UTF-8 character introduced by this byte — `1 + (byte & 0xF0 == 0xF0)
+ (byte & 0xE0 == 0xE0) + (byte & 0xC0 == 0xC0) - (byte & 0xC0 == 0x80)`,
so `0` for a continuation byte. -/
def bytes_in_utf8_byte (b : Nat) : Nat :=
  1 + (if b / 16 = 15 then 1 else 0) + (if b / 32 = 7 then 1 else 0)
    + (if b / 64 = 3 then 1 else 0) - (if b / 64 = 2 then 1 else 0)

/-- `cudf::string_view::length()` via
`strings::detail::characters_in_string`: the number of UTF-8 character
begin bytes (`(byte & 0xC0) != 0x80`). -/
def characters_in_string (s : List Nat) : Nat :=
  s.countP (fun b => !(b / 64 == 2))

/-- `cudf::strings::detail::bytes_to_character_position`: scan the bytes
from the front, one byte per step, consuming one character (decrementing
`pos`) at each non-continuation byte, and accumulate each visited byte's
`bytes_in_utf8_byte` width; stop when `pos` characters were consumed or
the data ends, returning the accumulated byte count. -/
def bytes_to_character_position : List Nat → Nat → Nat
  | _, 0 => 0
  | [], _ + 1 => 0
  | b :: rest, pos + 1 =>
    if bytes_in_utf8_byte b = 0 then bytes_to_character_position rest (pos + 1)
    else bytes_in_utf8_byte b + bytes_to_character_position rest pos

/-- `cudf::string_view::byte_offset(pos)`: `pos` itself when the
character count equals the byte count, otherwise the scan above. -/
def byte_offset (s : List Nat) (pos : Nat) : Nat :=
  if characters_in_string s = s.length then pos
  else bytes_to_character_position s pos

/-- `cudf::strings::detail::to_char_utf8`: the UTF-8 character value
starting at a byte offset — the byte itself for a one-byte (or
continuation) byte, otherwise the `bytes_in_utf8_byte` bytes packed
big-endian into one integer. -/
def to_char_utf8 (s : List Nat) (offset : Nat) : Nat :=
  if bytes_in_utf8_byte (s.getD offset 0) ≤ 1 then s.getD offset 0
  else if bytes_in_utf8_byte (s.getD offset 0) = 2 then
    s.getD offset 0 * 256 + s.getD (offset + 1) 0
  else if bytes_in_utf8_byte (s.getD offset 0) = 3 then
    (s.getD offset 0 * 256 + s.getD (offset + 1) 0) * 256 + s.getD (offset + 2) 0
  else
    ((s.getD offset 0 * 256 + s.getD (offset + 1) 0) * 256 + s.getD (offset + 2) 0) * 256 +
      s.getD (offset + 3) 0

/-- `cudf::string_view::operator[](pos)`: the character at character
position `pos`, or `0` when the resolved byte offset is out of range. -/
def string_view_at (s : List Nat) (pos : Nat) : Nat :=
  if byte_offset s pos < s.length then to_char_utf8 s (byte_offset s pos) else 0

/-- The `is_quoted` test of `detail::remove_quotes` (json_utils.cu line
362): `size > 1 && d_str[0] == '"' && d_str[size - 1] == '"'` where
`size` is `size_bytes()` but `operator[]` indexes by character
position. -/
def remove_quotes_is_quoted (s : List Nat) : Bool :=
  decide (1 < s.length) && string_view_at s 0 == 34 &&
    string_view_at s (s.length - 1) == 34

/-- Pass 1 of `detail::remove_quotes` (json_utils.cu lines 350-364): the
per-row output size.  Null rows get size `0`; a quoted row loses two
bytes. -/
def remove_quotes_size (row : Row) : Nat :=
  match row with
  | none => 0
  | some s =>
    if remove_quotes_is_quoted s then s.length - 2 else s.length

/-- Pass 2 of `detail::remove_quotes` (json_utils.cu lines 370-385): the
bytes copied for one row.  The source range starts one byte into the row
exactly when the output size differs from the input size, and spans
`output_size` bytes. -/
def remove_quotes_bytes (s : List Nat) : List Nat :=
  let output_size := remove_quotes_size (some s)
  let start := if s.length == output_size then 0 else 1
  (s.drop start).take output_size

/-- Public `remove_quotes` (json_utils.cu lines 342-393 and 470-478):
the null mask is copied from the input (`cudf::detail::copy_bitmask`),
and each non-null row carries the bytes of pass 2. -/
def remove_quotes (input : List Row) : List Row :=
  input.map (fun row =>
    match row with
    | none => none
    | some s => some (remove_quotes_bytes s))

/-- Well-formed UTF-8: a sequence of characters, each a begin byte whose
declared width is matched by that many following continuation bytes.
Used to scope statements about the character-positional quote test —
cudf requires its string data to be valid UTF-8. -/
def valid_utf8 : List Nat → Bool
  | [] => true
  | b :: rest =>
    match bytes_in_utf8_byte b, rest with
    | 0, _ => false
    | 1, rest => valid_utf8 rest
    | 2, c1 :: rest => (c1 / 64 == 2) && valid_utf8 rest
    | 3, c1 :: c2 :: rest => (c1 / 64 == 2) && (c2 / 64 == 2) && valid_utf8 rest
    | 4, c1 :: c2 :: c3 :: rest =>
      (c1 / 64 == 2) && (c2 / 64 == 2) && (c3 / 64 == 2) && valid_utf8 rest
    | _, _ => false

/-! ### Spec-side vocabulary

Definitions below restate the spec's descriptions (trimming, the `null`
literal, exact `true`/`false` byte strings, quote stripping) to compare
against the translated code. -/

/-- Spec: whitespace = space, tab, CR, LF (§4.1). -/
def spec_is_whitespace (ch : Nat) : Bool :=
  ch == 32 || ch == 9 || ch == 13 || ch == 10

/-- Spec: a row's text after trimming leading whitespace. -/
def spec_trim_leading (s : List Nat) : List Nat :=
  s.dropWhile spec_is_whitespace

/-- Spec: the remaining text begins with the 4-byte literal `null`. -/
def spec_has_null_prefix (s : List Nat) : Bool :=
  (spec_trim_leading s).take 4 == [110, 117, 108, 108]

/-- Spec: what follows the `null` literal, with whitespace consumed. -/
def spec_after_null (s : List Nat) : List Nat :=
  ((spec_trim_leading s).drop 4).dropWhile spec_is_whitespace

/-- Spec (§4.5, boolean caster): per-row mapping by exact
length-and-byte comparison against the literals `true` and `false`. -/
def spec_cast_boolean (row : Row) : Option Bool :=
  match row with
  | none => none
  | some s =>
    if s = [116, 114, 117, 101] then some true
    else if s = [102, 97, 108, 115, 101] then some false
    else none

/-- Spec (§4.5, quote stripper): per-row mapping — strip the enclosing
pair of `"` bytes when the row has length `> 1` and starts and ends with
`"`, otherwise keep the row unchanged. -/
def spec_remove_quotes (row : Row) : Row :=
  match row with
  | none => none
  | some s =>
    if 1 < s.length ∧ s.head? = some 34 ∧ s.getLast? = some 34 then
      some s.dropLast.tail
    else some s

/-- Spec-side rendering of the classification algorithm as amended:
null and all-whitespace rows are null-or-empty; a row reducing to the
bare `null` literal is neither candidate nor null-or-empty; otherwise
the row is a candidate exactly when the byte the scan stopped at is `{`
(for rows whose trimmed text starts with the `null` literal, that is the
first non-whitespace byte after the literal). -/
def spec_classify (row : Row) : Bool × Bool :=
  match row with
  | none => (false, true)
  | some s =>
    if spec_trim_leading s = [] then (false, true)
    else if spec_has_null_prefix s then
      match spec_after_null s with
      | [] => (false, false)
      | ch :: _ => (ch == 123, false)
    else ((spec_trim_leading s).headD 0 == 123, false)

/-- The classifier's whitespace test agrees with the spec's whitespace
set (space, tab, CR, LF). -/
theorem ws_pred_eq : (fun ch => !not_whitespace ch) = spec_is_whitespace := by
  funext ch
  rw [Bool.eq_iff_iff]
  simp only [not_whitespace, spec_is_whitespace, Bool.not_eq_true', Bool.and_eq_true,
    Bool.or_eq_true, bne_iff_ne, beq_iff_eq, Bool.and_eq_false_iff, bne_eq_false_iff_eq]
  omega

/-- Bridge: the translated classifier equals its spec-side rendering. -/
theorem classify_row_eq_spec (row : Row) : classify_row row = spec_classify row := by
  cases row with
  | none => rfl
  | some s =>
    simp only [classify_row, spec_classify, spec_has_null_prefix, spec_after_null,
      spec_trim_leading, ← ws_pred_eq]
    rcases h : s.dropWhile (fun ch => !not_whitespace ch) with _ | ⟨a, t⟩
    · simp
    · split
      · rename_i rest heq
        rw [heq]
        simp
      · rename_i heq
        exact absurd heq (by simp)
      · rename_i ch l heq hne
        obtain ⟨rfl, rfl⟩ : a = ch ∧ t = l := by
          injection hne with h1 h2
          exact ⟨h1, h2⟩
        have hcond : ¬ (a = 110 ∧ List.take 3 t = [117, 108, 108]) := by
          rintro ⟨h1, h2⟩
          have ht : t = 117 :: 108 :: 108 :: t.drop 3 := by
            nth_rewrite 1 [← List.take_append_drop 3 t]
            rw [h2]
            rfl
          exact heq (t.drop 3) h1 ht
        simp [hcond]


/-! ### Helper lemmas -/

/-- Unpacking a successful `concat_json` call: the delimiter came from
the histogram search over the flattened chars, the returned
`is_null_or_empty` column is the per-row classifier's second component,
and the joined buffer interleaves per-row payloads (candidate rows
verbatim, all others the two bytes `{}`) with the delimiter. -/
theorem concat_json_eq_ok (input : List Row) (r : ConcatResult)
    (h : concat_json input = .ok r) :
    find_delimiter ((input.map (fun row => row.getD [])).flatten) = some r.delimiter ∧
    r.is_null_or_empty = input.map (fun row => (classify_row row).2) ∧
    r.joined = List.intercalate [r.delimiter]
      (input.map (fun row => if (classify_row row).1 then row.getD [] else [123, 125])) := by
  simp only [concat_json] at h
  split at h
  · exact absurd h (by simp)
  · rename_i d hfd
    obtain rfl : (⟨(input.map classify_row).map Prod.snd,
        List.intercalate [d] (List.zipWith (fun r v => if v then r.getD [] else [123, 125])
          input ((input.map classify_row).map Prod.fst)), d⟩ : ConcatResult) = r := by
      injection h
    refine ⟨hfd, by rw [List.map_map]; rfl, ?_⟩
    show List.intercalate [d] _ = _
    rw [List.map_map, List.zipWith_map_right, List.zipWith_same, List.map_map]
    rfl

/-- A byte with a zero count does not occur in the buffer. -/
theorem count_byte_eq_zero_iff_not_mem {content : List Nat} {b : Nat}
    (h : count_byte content b = 0) : b ∉ content := by
  unfold count_byte at h
  rw [List.countP_eq_zero] at h
  intro hb
  simpa using h b hb

/-- A successful delimiter search yields a reader-safe char below 128
whose histogram count is zero — except char 127, whose bin is never
filled by the miscounting histogram call. -/
theorem find_delimiter_some_spec (content : List Nat) (d : Nat)
    (h : find_delimiter content = some d) :
    can_be_delimiter d = true ∧ d < 128 ∧
    (d ≠ 127 → count_byte content d = 0) := by
  unfold find_delimiter at h
  cases hf : (List.range' 128 128).find?
      (fun idx => hist_bin content idx == 0 && can_be_delimiter (idx - 128)) with
  | none => rw [hf] at h; simp at h
  | some idx =>
    rw [hf] at h
    simp at h
    have hp := List.find?_some hf
    have hrange := List.mem_range'_1.1 (List.mem_of_find?_eq_some hf)
    simp only [Bool.and_eq_true, beq_iff_eq] at hp
    subst h
    refine ⟨hp.2, by omega, fun hd => ?_⟩
    have hidx : ¬ idx = 255 := by omega
    have hbin : hist_bin content idx = count_byte content (idx - 128) := by
      unfold hist_bin
      rw [if_neg hidx, if_neg (by omega)]
    rw [← hbin]
    exact hp.1

/-- The delimiter search always succeeds: bin 255 (char 127, accepted by
`can_be_delimiter`) is never written by the histogram call and so always
reads zero. -/
theorem find_delimiter_always_some (content : List Nat) :
    ∃ d : Nat, find_delimiter content = some d := by
  have hmem : (255 : Nat) ∈ List.range' 128 128 := by
    rw [List.mem_range'_1]; omega
  have hsome : ((List.range' 128 128).find?
      (fun idx => hist_bin content idx == 0 && can_be_delimiter (idx - 128))).isSome := by
    rw [List.find?_isSome]
    exact ⟨255, hmem, by simp [hist_bin, can_be_delimiter]⟩
  obtain ⟨idx, hidx⟩ := Option.isSome_iff_exists.1 hsome
  exact ⟨idx - 128, by unfold find_delimiter; rw [hidx]; rfl⟩

/-- `concat_json` never reaches its error branch. -/
theorem concat_json_total (input : List Row) :
    ∃ r : ConcatResult, concat_json input = .ok r ∧
      r.is_null_or_empty.length = input.length := by
  obtain ⟨d, hd⟩ := find_delimiter_always_some ((input.map (fun row => row.getD [])).flatten)
  refine ⟨⟨(input.map classify_row).map Prod.snd,
      List.intercalate [d] (List.zipWith (fun r v => if v then r.getD [] else [123, 125])
        input ((input.map classify_row).map Prod.fst)), d⟩, ?_, by simp⟩
  simp only [concat_json]
  rw [hd]

/-- A list of length four is the list of its first four elements. -/
theorem eq_of_length_four {s : List Nat} (h : s.length = 4) :
    s = [s.getD 0 0, s.getD 1 0, s.getD 2 0, s.getD 3 0] := by
  rcases s with _ | ⟨a, _ | ⟨b, _ | ⟨c, _ | ⟨d, _ | ⟨e, t⟩⟩⟩⟩⟩ <;> simp_all

/-- A list of length five is the list of its first five elements. -/
theorem eq_of_length_five {s : List Nat} (h : s.length = 5) :
    s = [s.getD 0 0, s.getD 1 0, s.getD 2 0, s.getD 3 0, s.getD 4 0] := by
  rcases s with _ | ⟨a, _ | ⟨b, _ | ⟨c, _ | ⟨d, _ | ⟨e, _ | ⟨f, t⟩⟩⟩⟩⟩⟩ <;> simp_all

/-- The boolean caster's per-row output agrees with the spec-side exact
byte comparison against the `true` / `false` literals. -/
theorem cast_string_to_boolean_spec (row : Row) :
    (if (cast_string_to_boolean row).2 then some (cast_string_to_boolean row).1 else none) =
      spec_cast_boolean row := by
  cases row with
  | none => rfl
  | some s =>
    by_cases ht : s = [116, 114, 117, 101]
    · subst ht; rfl
    by_cases hf : s = [102, 97, 108, 115, 101]
    · subst hf; rfl
    have hc1 : (s.length == 4 && s.getD 0 0 == 116 && s.getD 1 0 == 114 &&
        s.getD 2 0 == 117 && s.getD 3 0 == 101) = false := by
      rw [Bool.eq_false_iff]
      intro hcon
      simp only [Bool.and_eq_true, beq_iff_eq] at hcon
      obtain ⟨⟨⟨⟨hl, h0⟩, h1⟩, h2⟩, h3⟩ := hcon
      exact ht (by rw [eq_of_length_four hl, h0, h1, h2, h3])
    have hc2 : (s.length == 5 && s.getD 0 0 == 102 && s.getD 1 0 == 97 &&
        s.getD 2 0 == 108 && s.getD 3 0 == 115 && s.getD 4 0 == 101) = false := by
      rw [Bool.eq_false_iff]
      intro hcon
      simp only [Bool.and_eq_true, beq_iff_eq] at hcon
      obtain ⟨⟨⟨⟨⟨hl, h0⟩, h1⟩, h2⟩, h3⟩, h4⟩ := hcon
      exact hf (by rw [eq_of_length_five hl, h0, h1, h2, h3, h4])
    have hcast : cast_string_to_boolean (some s) = (false, false) := by
      simp only [cast_string_to_boolean]
      rw [hc1, hc2]
      simp
    rw [hcast]
    simp [spec_cast_boolean, ht, hf]

/-- A byte introducing a multi-byte character is at least 0xC0. -/
theorem le_of_utf8_width_ge_two {b : Nat} (h : 2 ≤ bytes_in_utf8_byte b) : 192 ≤ b := by
  unfold bytes_in_utf8_byte at h
  split_ifs at h <;> omega

/-- A byte has width zero exactly when it is a continuation byte. -/
theorem utf8_width_zero_iff {b : Nat} : bytes_in_utf8_byte b = 0 ↔ b / 64 = 2 := by
  unfold bytes_in_utf8_byte
  constructor
  · intro h
    split_ifs at h <;> omega
  · intro h2
    have h15 : ¬ b / 16 = 15 := by omega
    have h7 : ¬ b / 32 = 7 := by omega
    have h3 : ¬ b / 64 = 3 := by omega
    rw [if_neg h15, if_neg h7, if_neg h3, if_pos h2]

/-- The character read at a byte offset equals `"` exactly when the byte
there is `"`: a multi-byte character packs a lead byte of at least 0xC0
into its high bits, so its value can never be 34. -/
theorem to_char_utf8_beq_34 (s : List Nat) (j : Nat) :
    (to_char_utf8 s j == 34) = (s.getD j 0 == 34) := by
  unfold to_char_utf8
  by_cases h1 : bytes_in_utf8_byte (s.getD j 0) ≤ 1
  · rw [if_pos h1]
  · have h192 : 192 ≤ s.getD j 0 := le_of_utf8_width_ge_two (by omega)
    rw [if_neg h1, Bool.eq_iff_iff]
    simp only [beq_iff_eq]
    split_ifs <;> (constructor <;> intro hcon <;> omega)

/-- When every byte begins a character (`length() == size_bytes()`), the
quote test reads the first and last bytes. -/
theorem is_quoted_fast (s : List Nat) (hcc : characters_in_string s = s.length) :
    remove_quotes_is_quoted s =
      (decide (1 < s.length) && s.getD 0 0 == 34 && s.getD (s.length - 1) 0 == 34) := by
  have hb0 : byte_offset s 0 = 0 := by
    unfold byte_offset
    rw [if_pos hcc]
  have hb1 : byte_offset s (s.length - 1) = s.length - 1 := by
    unfold byte_offset
    rw [if_pos hcc]
  by_cases hlen : 1 < s.length
  · unfold remove_quotes_is_quoted string_view_at
    rw [hb0, hb1, if_pos (by omega : (0:Nat) < s.length),
      if_pos (by omega : s.length - 1 < s.length), to_char_utf8_beq_34, to_char_utf8_beq_34]
  · unfold remove_quotes_is_quoted
    simp [hlen]

/-- The byte-level quote condition holds for byte-quoted rows. -/
theorem byte_quoted_true {s : List Nat} (hlen : 1 < s.length)
    (hhead : s.head? = some 34) (hlast : s.getLast? = some 34) :
    (decide (1 < s.length) && s.getD 0 0 == 34 && s.getD (s.length - 1) 0 == 34) = true := by
  simp only [Bool.and_eq_true, decide_eq_true_eq, beq_iff_eq]
  refine ⟨⟨hlen, ?_⟩, ?_⟩
  · rcases s with _ | ⟨a, t⟩
    · simp at hhead
    · simp only [List.head?_cons, Option.some.injEq] at hhead
      simpa using hhead
  · rw [List.getLast?_eq_getElem? s] at hlast
    rw [List.getD_eq_getElem?_getD, hlast]
    rfl

/-- The byte-level quote condition fails for rows that are not
byte-quoted. -/
theorem byte_quoted_false {s : List Nat}
    (hq : ¬ (1 < s.length ∧ s.head? = some 34 ∧ s.getLast? = some 34)) :
    (decide (1 < s.length) && s.getD 0 0 == 34 && s.getD (s.length - 1) 0 == 34) = false := by
  rw [Bool.eq_false_iff]
  intro hcon
  simp only [Bool.and_eq_true, decide_eq_true_eq, beq_iff_eq] at hcon
  obtain ⟨⟨hlen, h0⟩, h1⟩ := hcon
  apply hq
  refine ⟨hlen, ?_, ?_⟩
  · rcases s with _ | ⟨a, t⟩
    · simp at hlen
    · simpa using congrArg some h0
  · have hlt : s.length - 1 < s.length := by omega
    rw [List.getLast?_eq_getElem? s, List.getElem?_eq_getElem hlt]
    rw [List.getD_eq_getElem?_getD, List.getElem?_eq_getElem hlt] at h1
    simpa using congrArg some h1

/-- An unquoted row is copied verbatim by the two passes. -/
theorem remove_quotes_bytes_unquoted {s : List Nat}
    (hq : remove_quotes_is_quoted s = false) : remove_quotes_bytes s = s := by
  have hsize : remove_quotes_size (some s) = s.length := by
    simp only [remove_quotes_size]
    rw [hq]
    simp
  simp only [remove_quotes_bytes]
  rw [hsize]
  simp [List.take_length]

/-- A quoted row is copied from its second byte, two bytes shorter. -/
theorem remove_quotes_bytes_quoted {s : List Nat}
    (hq : remove_quotes_is_quoted s = true) (hlen : 1 < s.length) :
    remove_quotes_bytes s = (s.drop 1).take (s.length - 2) := by
  have hsize : remove_quotes_size (some s) = s.length - 2 := by
    simp only [remove_quotes_size]
    rw [hq]
    simp
  have hstart : (s.length == remove_quotes_size (some s)) = false := by
    rw [hsize]
    simp only [beq_eq_false_iff_ne, ne_eq]
    omega
  simp only [remove_quotes_bytes]
  rw [hstart, hsize]
  simp

/-- On a row where every byte begins a character, the per-row result is
the spec's byte-level stripping rule. -/
theorem remove_quotes_fast_row (s : List Nat)
    (hcc : characters_in_string s = s.length) :
    some (remove_quotes_bytes s) = spec_remove_quotes (some s) := by
  by_cases hq : 1 < s.length ∧ s.head? = some 34 ∧ s.getLast? = some 34
  · obtain ⟨hlen, hhead, hlast⟩ := hq
    have hqt : remove_quotes_is_quoted s = true := by
      rw [is_quoted_fast s hcc]
      exact byte_quoted_true hlen hhead hlast
    rw [remove_quotes_bytes_quoted hqt hlen]
    simp only [spec_remove_quotes]
    rw [if_pos (And.intro hlen (And.intro hhead hlast))]
    congr 1
    rw [List.dropLast_eq_take s, ← List.drop_one, List.drop_take]
    congr 1
  · have hqf : remove_quotes_is_quoted s = false := by
      rw [is_quoted_fast s hcc]
      exact byte_quoted_false hq
    rw [remove_quotes_bytes_unquoted hqf]
    simp [spec_remove_quotes, hq]

/-- A valid UTF-8 string with character count zero is empty. -/
theorem valid_utf8_cc_zero {s : List Nat} (hv : valid_utf8 s = true)
    (hcc : characters_in_string s = 0) : s = [] := by
  cases s with
  | nil => rfl
  | cons b rest =>
    exfalso
    have hb : bytes_in_utf8_byte b ≠ 0 := by
      intro h0
      simp only [valid_utf8, h0] at hv
      exact Bool.false_ne_true hv
    have hbb : (!(b / 64 == 2)) = true := by
      simp only [Bool.not_eq_true', beq_eq_false_iff_ne, ne_eq]
      exact fun h2 => hb (utf8_width_zero_iff.2 h2)
    unfold characters_in_string at hcc
    simp [List.countP_cons, hbb] at hcc

/-- On valid UTF-8, asking the character scan for a position at or past
the character count walks the entire byte buffer. -/
theorem bytes_to_character_position_valid (s : List Nat) (pos : Nat)
    (hv : valid_utf8 s = true) (hpos : characters_in_string s ≤ pos) :
    bytes_to_character_position s pos = s.length := by
  suffices H : ∀ (n : Nat) (s : List Nat) (pos : Nat), s.length ≤ n →
      valid_utf8 s = true → characters_in_string s ≤ pos →
      bytes_to_character_position s pos = s.length from
    H s.length s pos le_rfl hv hpos
  intro n
  induction n with
  | zero =>
    intro s pos hn _ _
    obtain rfl : s = [] := List.length_eq_zero.1 (Nat.le_zero.1 hn)
    cases pos <;> rfl
  | succ n ih =>
    intro s pos hn hv hpos
    rcases s with _ | ⟨b, rest⟩
    · cases pos <;> rfl
    have hw0 : bytes_in_utf8_byte b ≠ 0 := by
      intro h0
      simp only [valid_utf8, h0] at hv
      exact Bool.false_ne_true hv
    have hbb : (!(b / 64 == 2)) = true := by
      simp only [Bool.not_eq_true', beq_eq_false_iff_ne, ne_eq]
      exact fun h2 => hw0 (utf8_width_zero_iff.2 h2)
    have hcc_cons : characters_in_string (b :: rest) = characters_in_string rest + 1 := by
      unfold characters_in_string
      simp [List.countP_cons, hbb]
    rw [hcc_cons] at hpos
    obtain ⟨pos', rfl⟩ : ∃ p, pos = p + 1 := by
      cases pos
      · exact absurd hpos (by omega)
      · exact ⟨_, rfl⟩
    have hrest_len : rest.length ≤ n := by
      simp only [List.length_cons] at hn
      omega
    have hstep : bytes_to_character_position (b :: rest) (pos' + 1) =
        bytes_in_utf8_byte b + bytes_to_character_position rest pos' := by
      simp only [bytes_to_character_position]
      rw [if_neg hw0]
    have hw14 : bytes_in_utf8_byte b = 1 ∨ bytes_in_utf8_byte b = 2 ∨
        bytes_in_utf8_byte b = 3 ∨ bytes_in_utf8_byte b = 4 := by
      have hw4 : bytes_in_utf8_byte b ≤ 4 := by
        unfold bytes_in_utf8_byte
        split_ifs <;> omega
      omega
    rcases hw14 with hwv | hwv | hwv | hwv
    · -- single-byte character
      unfold valid_utf8 at hv
      rw [hwv] at hv
      simp at hv
      rw [hstep, hwv, ih rest pos' hrest_len hv (by omega)]
      simp only [List.length_cons]
      omega
    · -- two-byte character: one continuation byte follows
      rcases rest with _ | ⟨c1, rest'⟩
      · unfold valid_utf8 at hv
        rw [hwv] at hv
        simp at hv
      unfold valid_utf8 at hv
      rw [hwv] at hv
      simp only [Bool.and_eq_true, beq_iff_eq] at hv
      obtain ⟨hc1, hv'⟩ := hv
      have hc1w : bytes_in_utf8_byte c1 = 0 := utf8_width_zero_iff.2 hc1
      have hcc1 : characters_in_string (c1 :: rest') = characters_in_string rest' := by
        unfold characters_in_string
        simp [List.countP_cons, hc1]
      rw [hcc1] at hpos
      rw [hstep, hwv]
      cases pos' with
      | zero =>
        obtain rfl : rest' = [] := valid_utf8_cc_zero hv' (by omega)
        simp [bytes_to_character_position]
      | succ p =>
        have hskip : bytes_to_character_position (c1 :: rest') (p + 1) =
            bytes_to_character_position rest' (p + 1) := by
          simp [bytes_to_character_position, hc1w]
        rw [hskip,
          ih rest' (p + 1) (by simp only [List.length_cons] at hrest_len; omega) hv' (by omega)]
        simp only [List.length_cons]
        omega
    · -- three-byte character: two continuation bytes follow
      rcases rest with _ | ⟨c1, _ | ⟨c2, rest'⟩⟩
      · unfold valid_utf8 at hv
        rw [hwv] at hv
        simp at hv
      · unfold valid_utf8 at hv
        rw [hwv] at hv
        simp at hv
      unfold valid_utf8 at hv
      rw [hwv] at hv
      simp only [Bool.and_eq_true, beq_iff_eq] at hv
      obtain ⟨⟨hc1, hc2⟩, hv'⟩ := hv
      have hc1w : bytes_in_utf8_byte c1 = 0 := utf8_width_zero_iff.2 hc1
      have hc2w : bytes_in_utf8_byte c2 = 0 := utf8_width_zero_iff.2 hc2
      have hcc1 : characters_in_string (c1 :: c2 :: rest') = characters_in_string rest' := by
        unfold characters_in_string
        simp [List.countP_cons, hc1, hc2]
      rw [hcc1] at hpos
      rw [hstep, hwv]
      cases pos' with
      | zero =>
        obtain rfl : rest' = [] := valid_utf8_cc_zero hv' (by omega)
        simp [bytes_to_character_position]
      | succ p =>
        have hskip : bytes_to_character_position (c1 :: c2 :: rest') (p + 1) =
            bytes_to_character_position rest' (p + 1) := by
          simp [bytes_to_character_position, hc1w, hc2w]
        rw [hskip,
          ih rest' (p + 1) (by simp only [List.length_cons] at hrest_len; omega) hv' (by omega)]
        simp only [List.length_cons]
        omega
    · -- four-byte character: three continuation bytes follow
      rcases rest with _ | ⟨c1, _ | ⟨c2, _ | ⟨c3, rest'⟩⟩⟩
      · unfold valid_utf8 at hv
        rw [hwv] at hv
        simp at hv
      · unfold valid_utf8 at hv
        rw [hwv] at hv
        simp at hv
      · unfold valid_utf8 at hv
        rw [hwv] at hv
        simp at hv
      unfold valid_utf8 at hv
      rw [hwv] at hv
      simp only [Bool.and_eq_true, beq_iff_eq] at hv
      obtain ⟨⟨⟨hc1, hc2⟩, hc3⟩, hv'⟩ := hv
      have hc1w : bytes_in_utf8_byte c1 = 0 := utf8_width_zero_iff.2 hc1
      have hc2w : bytes_in_utf8_byte c2 = 0 := utf8_width_zero_iff.2 hc2
      have hc3w : bytes_in_utf8_byte c3 = 0 := utf8_width_zero_iff.2 hc3
      have hcc1 : characters_in_string (c1 :: c2 :: c3 :: rest') =
          characters_in_string rest' := by
        unfold characters_in_string
        simp [List.countP_cons, hc1, hc2, hc3]
      rw [hcc1] at hpos
      rw [hstep, hwv]
      cases pos' with
      | zero =>
        obtain rfl : rest' = [] := valid_utf8_cc_zero hv' (by omega)
        simp [bytes_to_character_position]
      | succ p =>
        have hskip : bytes_to_character_position (c1 :: c2 :: c3 :: rest') (p + 1) =
            bytes_to_character_position rest' (p + 1) := by
          simp [bytes_to_character_position, hc1w, hc2w, hc3w]
        rw [hskip,
          ih rest' (p + 1) (by simp only [List.length_cons] at hrest_len; omega) hv' (by omega)]
        simp only [List.length_cons]
        omega

/-- On a valid UTF-8 row containing a multi-byte character, the quote
test's read of character position `size - 1` is out of range, so the
row is never quoted. -/
theorem is_quoted_valid_multibyte {s : List Nat} (hv : valid_utf8 s = true)
    (hcc : characters_in_string s < s.length) :
    remove_quotes_is_quoted s = false := by
  have hoff : byte_offset s (s.length - 1) = s.length := by
    unfold byte_offset
    rw [if_neg (Nat.ne_of_lt hcc)]
    exact bytes_to_character_position_valid s (s.length - 1) hv (by omega)
  unfold remove_quotes_is_quoted string_view_at
  rw [hoff, if_neg (lt_irrefl s.length)]
  simp

/-- A `make_structs` failure implies two children with different row
counts. -/
theorem make_structs_error_inv (children : List ColumnView) (is_null : List Bool)
    (msg : String) (h : make_structs children is_null = .error msg) :
    ∃ c ∈ children, ∃ c' ∈ children, c.size ≠ c'.size := by
  unfold make_structs at h
  by_cases hlen : children.length = 0
  · rw [if_pos hlen] at h
    simp at h
  rw [if_neg hlen] at h
  by_cases hall : children.all
      (fun col => col.size == (children.headD ⟨0, []⟩).size) = true
  · rw [if_pos hall] at h
    simp at h
  · have hex : ∃ c ∈ children, ¬ c.size = (children.headD ⟨0, []⟩).size := by
      simpa [List.all_eq_true] using hall
    obtain ⟨c, hc, hcsz⟩ := hex
    have hhead : children.headD ⟨0, []⟩ ∈ children := by
      rcases children with _ | ⟨c0, cs⟩
      · simp at hlen
      · simp
    exact ⟨c, hc, children.headD ⟨0, []⟩, hhead, hcsz⟩

/-! ### Claims -/

/-- C1 (counterexample): for the single candidate row `{}` the produced
document is `{}` itself — not `{` ++ payloads ++ `}` as the claim
states, which here would be `{{}}`. -/
theorem concat_json_outer_braces_cex :
    concat_json [some [123, 125]] = .ok ⟨[false], [123, 125], 0⟩ ∧
    ([123, 125] : List Nat) ≠ [123] ++ List.intercalate [0] [[123, 125]] ++ [125] :=
  ⟨by rfl, by decide⟩

/-- C1 (amended): whenever `concat_json` succeeds, the produced document
equals the per-row payloads joined by the delimiter, where a candidate
row's payload is its original bytes unchanged and every other row's
payload is the two-byte replacement `{}`; nothing is prepended or
appended around the join. -/
theorem concat_json_document_joined (input : List Row) (r : ConcatResult)
    (h : concat_json input = .ok r) :
    r.joined = List.intercalate [r.delimiter]
      (input.map (fun row => if (classify_row row).1 then row.getD [] else [123, 125])) :=
  (concat_json_eq_ok input r h).2.2

/-- Witness for C1's amended theorem on the column `["{}", null]`. -/
theorem concat_json_document_joined_witness :
    ([123, 125, 0, 123, 125] : List Nat) = List.intercalate [0]
      ([some [123, 125], none].map
        (fun row => if (classify_row row).1 then row.getD [] else [123, 125])) :=
  concat_json_document_joined [some [123, 125], none]
    ⟨[false, true], [123, 125, 0, 123, 125], 0⟩ (by rfl)

/-- C2 (counterexample): a row holding exactly the literal `null` comes
back with `is_null_or_empty = false`, not `true` as the claim states
(the code masks such rows out of the concatenation but reports them as
not null-or-empty). -/
theorem concat_json_null_literal_flag_cex :
    concat_json [some [110, 117, 108, 108]] = .ok ⟨[false], [123, 125], 0⟩ ∧
    ([false] : List Bool) ≠ [true] :=
  ⟨by rfl, by decide⟩

/-- C2 (amended): the classification computed by `concat_json` follows
the corrected algorithm `spec_classify`: null rows and rows that trim to
nothing yield `(false, true)`; rows that reduce to the bare `null`
literal yield `(false, false)`; any other row yields `(c == 123, false)`
where `c` is the byte the scan stopped at (the first non-whitespace
byte, or — when a `null` prefix is present — the first non-whitespace
byte after it); the returned `is_null_or_empty` vector is the second
component of that classification for every row. -/
theorem concat_json_classification_amended :
    (∀ row : Row, classify_row row = spec_classify row) ∧
    ∀ (input : List Row) (r : ConcatResult), concat_json input = .ok r →
      r.is_null_or_empty = input.map (fun row => (spec_classify row).2) := by
  refine ⟨classify_row_eq_spec, fun input r h => ?_⟩
  rw [(concat_json_eq_ok input r h).2.1]
  exact List.map_congr_left (fun row _ => by rw [classify_row_eq_spec])

/-- Witness for C2's amended theorem on `["null", null, "{}"]`. -/
theorem concat_json_classification_amended_witness :
    ([false, true, false] : List Bool) =
      [some [110, 117, 108, 108], none, some [123, 125]].map
        (fun row => (spec_classify row).2) :=
  concat_json_classification_amended.2 [some [110, 117, 108, 108], none, some [123, 125]]
    ⟨[false, true, false], [123, 125, 0, 123, 125, 0, 123, 125], 0⟩ (by rfl)

/-- C3 (counterexample): for a row containing bytes 0..9 the selected
delimiter is byte 10 — the LF character, which is common whitespace by
the program's own whitespace predicate, contradicting the claim that the
delimiter avoids common whitespace. -/
theorem concat_json_delimiter_whitespace_cex :
    concat_json [some [0, 1, 2, 3, 4, 5, 6, 7, 8, 9]] = .ok ⟨[false], [123, 125], 10⟩ ∧
    spec_is_whitespace 10 = true ∧ not_whitespace 10 = false :=
  ⟨by rfl, by rfl, by rfl⟩

/-- C3 (amended): whenever `concat_json` succeeds, the delimiter passes
`can_be_delimiter` (it is none of the twelve bytes the reader rejects
for its delimiter: braces, brackets, comma, colon, quotes, backslash,
space, tab, CR — LF and control bytes remain eligible), it lies below
128, and — unless it is byte 127, whose occurrences the histogram call
never counts — it occurs in no row's byte content. -/
theorem concat_json_delimiter_safe (input : List Row) (r : ConcatResult)
    (h : concat_json input = .ok r) :
    can_be_delimiter r.delimiter = true ∧ r.delimiter < 128 ∧
    (r.delimiter ≠ 127 → ∀ bs : List Nat, some bs ∈ input → r.delimiter ∉ bs) := by
  obtain ⟨hfd, -, -⟩ := concat_json_eq_ok input r h
  obtain ⟨hcan, hlt, hcount⟩ := find_delimiter_some_spec _ _ hfd
  refine ⟨hcan, hlt, fun hne bs hbs hmem => ?_⟩
  have hin : r.delimiter ∈ (input.map (fun row => row.getD [])).flatten := by
    rw [List.mem_flatten]
    exact ⟨bs, List.mem_map.2 ⟨some bs, hbs, rfl⟩, hmem⟩
  exact count_byte_eq_zero_iff_not_mem (hcount hne) hin

/-- Witness for C3's amended theorem on the column `[bytes 0..9]`. -/
theorem concat_json_delimiter_safe_witness :
    can_be_delimiter 10 = true ∧ (10 : Nat) ∉ ([0, 1, 2, 3, 4, 5, 6, 7, 8, 9] : List Nat) :=
  ⟨(concat_json_delimiter_safe [some [0, 1, 2, 3, 4, 5, 6, 7, 8, 9]]
      ⟨[false], [123, 125], 10⟩ (by rfl)).1,
   (concat_json_delimiter_safe [some [0, 1, 2, 3, 4, 5, 6, 7, 8, 9]]
      ⟨[false], [123, 125], 10⟩ (by rfl)).2.2 (by decide)
     [0, 1, 2, 3, 4, 5, 6, 7, 8, 9] (by decide)⟩

set_option maxRecDepth 4000 in
/-- C4 (code_bug evidence): on a row containing every byte value 0..255
— so the content, together with the disallow-set, covers the entire byte
range — `concat_json` does not raise the claimed fatal error: it returns
successfully with delimiter 127, a byte that occurs in the content.  The
histogram call fills only 255 of the 256 bins, so the bin of char 127
always reads zero and the error branch is unreachable. -/
theorem concat_json_full_range_no_error :
    concat_json [some (List.range 256)] = .ok ⟨[false], [123, 125], 127⟩ ∧
    (127 : Nat) ∈ List.range 256 :=
  ⟨by rfl, by simp⟩

/-- C5 (confirmed): for a non-empty list of children of equal row count
and an is-null vector of that row count, `make_structs` returns a struct
column whose validity is the pointwise negation of `is_null`, whose row
count is the shared child row count, and whose children are the input
children unchanged. -/
theorem make_structs_validity_negates_is_null (children : List ColumnView)
    (is_null : List Bool) (rc : Nat) (hne : children ≠ [])
    (hsz : ∀ c ∈ children, c.size = rc) (hlen : is_null.length = rc) :
    ∃ s : StructColumn, make_structs children is_null = .ok (some s) ∧
      s.row_count = rc ∧ s.children = children ∧
      s.validity = is_null.map (fun b => !b) ∧
      ∀ i : Nat, s.validity[i]? = (is_null[i]?).map (fun b => !b) := by
  have hhead : (children.headD ⟨0, []⟩).size = rc := by
    rcases children with _ | ⟨c0, cs⟩
    · exact absurd rfl hne
    · exact hsz c0 (by simp)
  refine ⟨⟨(children.headD ⟨0, []⟩).size, is_null.map (fun b => !b), children⟩,
    ?_, hhead, rfl, rfl, ?_⟩
  · simp only [make_structs]
    rw [if_neg (by simpa [List.length_eq_zero] using hne), if_pos]
    rw [List.all_eq_true]
    intro col hcol
    have hcs : col.size = (children.headD ⟨0, []⟩).size := by
      rw [hsz col hcol, hhead]
    simp [hcs]
  · intro i
    exact List.getElem?_map ..

/-- Witness for C5's theorem on one child of two rows. -/
theorem make_structs_validity_negates_is_null_witness :
    ∃ s : StructColumn, make_structs [⟨2, [5, 6]⟩] [true, false] = .ok (some s) ∧
      s.row_count = 2 ∧ s.children = [⟨2, [5, 6]⟩] ∧
      s.validity = [true, false].map (fun b => !b) ∧
      ∀ i : Nat, s.validity[i]? = (([true, false] : List Bool)[i]?).map (fun b => !b) :=
  make_structs_validity_negates_is_null [⟨2, [5, 6]⟩] [true, false] 2
    (by decide) (by decide) (by decide)

/-- C6 (confirmed): the boolean caster maps each row by exact
length-and-byte comparison — null to null, the 4 bytes `true` to a valid
true, the 5 bytes `false` to a valid false, and anything else (case
variants, whitespace, numbers) to null. -/
theorem cast_strings_to_booleans_exact_literals (input : List Row) :
    cast_strings_to_booleans input = input.map spec_cast_boolean :=
  List.map_congr_left (fun row _ => cast_string_to_boolean_spec row)

/-- C7 (counterexample): the byte-quoted row `"é"` (bytes 34 195 169 34,
four bytes but three characters) is returned unchanged by the code — the
quote test reads character position `size - 1 = 3`, which is past the
last character — while the claim demands the substring without the two
quote bytes. -/
theorem remove_quotes_multibyte_cex :
    remove_quotes [some [34, 195, 169, 34]] = [some [34, 195, 169, 34]] ∧
    spec_remove_quotes (some [34, 195, 169, 34]) = some [195, 169] ∧
    some ([34, 195, 169, 34] : List Nat) ≠ some [195, 169] :=
  ⟨by decide, by decide, by decide⟩

/-- C7 (amended): the quote stripper preserves row count and null
positions; since the quote test indexes by character position while
`size` counts bytes, the byte-level stripping rule (length > 1, first
and last byte `"`, with the single-quote row untouched) holds exactly
for rows in which every byte begins a UTF-8 character — in particular
for every ASCII row — while a valid-UTF-8 row containing a multi-byte
character is always returned unchanged, because character position
`size - 1` lies past its last character and reads 0. -/
theorem remove_quotes_character_positional (input : List Row) :
    ((remove_quotes input).length = input.length ∧
      ∀ i : Nat, ((remove_quotes input)[i]? = some none ↔ input[i]? = some none)) ∧
    (∀ s : List Nat, characters_in_string s = s.length →
      remove_quotes [some s] = [spec_remove_quotes (some s)]) ∧
    (∀ s : List Nat, valid_utf8 s = true → characters_in_string s < s.length →
      remove_quotes [some s] = [some s]) := by
  refine ⟨⟨by simp [remove_quotes], fun i => ?_⟩, fun s hcc => ?_, fun s hv hcc => ?_⟩
  · unfold remove_quotes
    rw [List.getElem?_map]
    cases hi : input[i]? with
    | none => simp
    | some row =>
      cases row with
      | none => simp
      | some s => simp
  · show [some (remove_quotes_bytes s)] = [spec_remove_quotes (some s)]
    rw [remove_quotes_fast_row s hcc]
  · show [some (remove_quotes_bytes s)] = [some s]
    rw [remove_quotes_bytes_unquoted (is_quoted_valid_multibyte hv hcc)]

/-- Witness for C7's amended theorem: an ASCII quoted row is stripped per
the byte rule, and a row holding one two-byte character passes through. -/
theorem remove_quotes_character_positional_witness :
    remove_quotes [some [34, 97, 34]] = [spec_remove_quotes (some [34, 97, 34])] ∧
    remove_quotes [some [195, 169]] = [some [195, 169]] :=
  ⟨(remove_quotes_character_positional []).2.1 [34, 97, 34] (by decide),
   (remove_quotes_character_positional []).2.2 [195, 169] (by decide) (by decide)⟩

/-- C8 (confirmed): `make_structs` reports the row-count error whenever
two supplied children have different row counts. -/
theorem make_structs_mismatch_errors (children : List ColumnView) (is_null : List Bool)
    (h : ∃ c ∈ children, ∃ c' ∈ children, c.size ≠ c'.size) :
    make_structs children is_null = .error "All columns must have the same number of rows." := by
  obtain ⟨c, hc, c', hc', hcc⟩ := h
  have hne : children.length ≠ 0 := by
    intro h0
    rw [List.length_eq_zero] at h0
    subst h0
    simp at hc
  have hcond : ¬ children.all (fun col => col.size == (children.headD ⟨0, []⟩).size) = true := by
    rw [List.all_eq_true]
    intro hall
    have h1 := hall c hc
    have h2 := hall c' hc'
    simp only [beq_iff_eq] at h1 h2
    exact hcc (h1.trans h2.symm)
  simp only [make_structs]
  rw [if_neg hne, if_neg hcond]

/-- Witness for C8's theorem on children of sizes 2 and 3. -/
theorem make_structs_mismatch_errors_witness :
    make_structs [⟨2, [5, 6]⟩, ⟨3, [7, 8, 9]⟩] [true] =
      .error "All columns must have the same number of rows." :=
  make_structs_mismatch_errors [⟨2, [5, 6]⟩, ⟨3, [7, 8, 9]⟩] [true]
    ⟨⟨2, [5, 6]⟩, by decide, ⟨3, [7, 8, 9]⟩, by decide, by decide⟩

/-- C9 (counterexample): a malformed-UTF-8 row made of quote, stray
continuation bytes and a final `a` (bytes 34 169 169 34 169 97) is not
byte-quoted — its last byte is `a` — yet the character-positional quote
test resolves position `size - 1 = 5` to byte offset 3, reads the `"`
there, and the row is stripped rather than passed through. -/
theorem remove_quotes_invalid_utf8_strip_cex :
    remove_quotes [some [34, 169, 169, 34, 169, 97]] = [some [169, 169, 34, 169]] ∧
    ¬ (1 < ([34, 169, 169, 34, 169, 97] : List Nat).length ∧
        ([34, 169, 169, 34, 169, 97] : List Nat).head? = some 34 ∧
        ([34, 169, 169, 34, 169, 97] : List Nat).getLast? = some 34) :=
  ⟨by decide, by decide⟩

/-- C9 (amended): per-row semantic non-matches never abort a batch –
`concat_json` always classifies every row and returns successfully, the
quote stripper and boolean caster are total and length-preserving, a
well-formed non-quoted row (every byte a character begin, or valid
UTF-8) passes through the quote stripper unchanged, non-boolean text
becomes null rather than an error, and the only `make_structs` failure
is the global row-count-mismatch precondition. -/
theorem per_row_non_matches_never_abort :
    (∀ input : List Row, ∃ r : ConcatResult, concat_json input = .ok r ∧
      r.is_null_or_empty.length = input.length) ∧
    (∀ input : List Row, (remove_quotes input).length = input.length ∧
      (cast_strings_to_booleans input).length = input.length) ∧
    (∀ s : List Nat, characters_in_string s = s.length ∨ valid_utf8 s = true →
      ¬ (1 < s.length ∧ s.head? = some 34 ∧ s.getLast? = some 34) →
      remove_quotes [some s] = [some s]) ∧
    (∀ s : List Nat, s ≠ [116, 114, 117, 101] → s ≠ [102, 97, 108, 115, 101] →
      cast_strings_to_booleans [some s] = [none]) ∧
    (∀ (children : List ColumnView) (is_null : List Bool) (msg : String),
      make_structs children is_null = .error msg →
      ∃ c ∈ children, ∃ c' ∈ children, c.size ≠ c'.size) := by
  refine ⟨concat_json_total,
    fun input => ⟨by simp [remove_quotes], by simp [cast_strings_to_booleans]⟩,
    ?_, ?_, make_structs_error_inv⟩
  · intro s hwf hnq
    have hqf : remove_quotes_is_quoted s = false := by
      by_cases hcc : characters_in_string s = s.length
      · rw [is_quoted_fast s hcc]
        exact byte_quoted_false hnq
      · rcases hwf with hcc' | hv
        · exact absurd hcc' hcc
        · exact is_quoted_valid_multibyte hv
            (lt_of_le_of_ne (List.countP_le_length _) hcc)
    show [some (remove_quotes_bytes s)] = [some s]
    rw [remove_quotes_bytes_unquoted hqf]
  · intro s ht hf
    have h2 : spec_cast_boolean (some s) = none := by
      simp only [spec_cast_boolean]
      rw [if_neg ht, if_neg hf]
    show [if (cast_string_to_boolean (some s)).2 then
      some (cast_string_to_boolean (some s)).1 else none] = [none]
    rw [cast_string_to_boolean_spec (some s), h2]

/-- Witness for C9's theorem: the digit row `1` casts to null and the
letter row `a` passes through the quote stripper. -/
theorem per_row_non_matches_never_abort_witness :
    cast_strings_to_booleans [some [49]] = [none] ∧
    remove_quotes [some [97]] = [some [97]] :=
  ⟨per_row_non_matches_never_abort.2.2.2.1 [49] (by decide) (by decide),
   per_row_non_matches_never_abort.2.2.1 [97] (Or.inl (by decide)) (by decide)⟩

/-- C10 (confirmed): with an empty child list `make_structs` returns the
absent column (`nullptr`) without error, for whatever is-null vector it
was handed. -/
theorem make_structs_empty_children_ok_none (is_null : List Bool) :
    make_structs [] is_null = .ok none := rfl
